import Mathlib

/-!
Verification of the bitget-hedger dashboard against its specification.

The development shallowly embeds the TypeScript sources:
  * src/utils/bitgetApi.ts — request signing (generateSignature, via
    crypto-js HmacSHA256 + Base64), header construction (createHeaders),
    the request client (makeApiRequest) and the endpoint wrappers
    (getAccountBalance, getPositions, getOrders, cancelOrder);
  * src/App.tsx — the per-account state table, the fetch cycle
    (fetchAccountData), the cancel handler (handleCancelOrder), the
    position filter of the dashboard, and the WebSocket price-feed
    event handlers.

Strings are Lean Strings; bytes are Nat below 256; 32-bit words are Nat
reduced modulo 2 ^ 32 at every operation that can overflow. Network
effects are made explicit: each wrapper takes the outcome the network
produced (a thrown exception, or an HTTP status with raw text and the
parsed JSON envelope) and returns the value or failure the TypeScript
code would produce. Ambient time (Date.now) is an explicit argument.
-/

namespace BitgetHedger

/-! ## Bytes and UTF-8 -/

/-- UTF-8 encoding of one character, as a list of byte values. -/
def utf8EncodeCharNat (c : Char) : List Nat :=
  let n := c.toNat
  if n < 128 then [n]
  else if n < 2048 then
    [192 + n / 64, 128 + n % 64]
  else if n < 65536 then
    [224 + n / 4096, 128 + n / 64 % 64, 128 + n % 64]
  else
    [240 + n / 262144, 128 + n / 4096 % 64, 128 + n / 64 % 64, 128 + n % 64]

/-- UTF-8 byte sequence of a string. -/
def utf8Bytes (s : String) : List Nat :=
  (s.data.map utf8EncodeCharNat).flatten

/-! ## SHA-256 (FIPS 180-4), over byte lists

Words are Nat values kept below 2 ^ 32 by `w32`. This is the function
crypto-js applies inside HmacSHA256. -/

/-- Reduction of a Nat to a 32-bit word. -/
def w32 (n : Nat) : Nat := n % 4294967296

/-- Right rotation of a 32-bit word by `r` bits. -/
def rotr (r x : Nat) : Nat := w32 ((x >>> r) + (x <<< (32 - r)))

/-- Bitwise complement of a 32-bit word. -/
def not32 (x : Nat) : Nat := x ^^^ 4294967295

/-- Round constants of SHA-256, in decimal. -/
def shaK : List Nat :=
  [1116352408, 1899447441, 3049323471, 3921009573, 961987163,
   1508970993, 2453635748, 2870763221, 3624381080, 310598401,
   607225278, 1426881987, 1925078388, 2162078206, 2614888103,
   3248222580, 3835390401, 4022224774, 264347078, 604807628,
   770255983, 1249150122, 1555081692, 1996064986, 2554220882,
   2821834349, 2952996808, 3210313671, 3336571891, 3584528711,
   113926993, 338241895, 666307205, 773529912, 1294757372,
   1396182291, 1695183700, 1986661051, 2177026350, 2456956037,
   2730485921, 2820302411, 3259730800, 3345764771, 3516065817,
   3600352804, 4094571909, 275423344, 430227734, 506948616,
   659060556, 883997877, 958139571, 1322822218, 1537002063,
   1747873779, 1955562222, 2024104815, 2227730452, 2361852424,
   2428436474, 2756734187, 3204031479, 3329325298]

/-- Initial hash state of SHA-256, in decimal. -/
def shaH0 : List Nat :=
  [1779033703, 3144134277, 1013904242, 2773480762,
   1359893119, 2600822924, 528734635, 1541459225]

/-- Big-endian byte decomposition of `n` into `k` bytes. -/
def beBytes (k n : Nat) : List Nat :=
  (List.range k).map (fun i => n >>> (8 * (k - 1 - i)) % 256)

/-- SHA-256 message padding: append 0x80, zeros, then the 64-bit
big-endian bit length, reaching a multiple of 64 bytes. -/
def shaPad (msg : List Nat) : List Nat :=
  let L := msg.length
  let zeros := (119 - L % 64) % 64
  msg ++ [128] ++ List.replicate zeros 0 ++ beBytes 8 (8 * L)

/-- Grouping of bytes into big-endian 32-bit words. -/
def bytesToWords : List Nat → List Nat
  | a :: b :: c :: d :: rest =>
      (a * 16777216 + b * 65536 + c * 256 + d) :: bytesToWords rest
  | _ => []

/-- Small sigma-0 of the SHA-256 message schedule. -/
def ssig0 (x : Nat) : Nat := rotr 7 x ^^^ rotr 18 x ^^^ (x >>> 3)

/-- Small sigma-1 of the SHA-256 message schedule. -/
def ssig1 (x : Nat) : Nat := rotr 17 x ^^^ rotr 19 x ^^^ (x >>> 10)

/-- Big sigma-0 of the SHA-256 compression function. -/
def bsig0 (x : Nat) : Nat := rotr 2 x ^^^ rotr 13 x ^^^ rotr 22 x

/-- Big sigma-1 of the SHA-256 compression function. -/
def bsig1 (x : Nat) : Nat := rotr 6 x ^^^ rotr 11 x ^^^ rotr 25 x

/-- Extension of the 16-word schedule to 64 words; `fuel` counts the
remaining words to append. -/
def extendW : Nat → List Nat → List Nat
  | 0, w => w
  | fuel + 1, w =>
      let n := w.length
      let wi := w32 (ssig1 (w.getD (n - 2) 0) + w.getD (n - 7) 0 +
                     ssig0 (w.getD (n - 15) 0) + w.getD (n - 16) 0)
      extendW fuel (w ++ [wi])

/-- One round of the SHA-256 compression function on the 8-word state. -/
def shaRound (k wt : Nat) (s : List Nat) : List Nat :=
  match s with
  | [a, b, c, d, e, f, g, h] =>
      let ch := (e &&& f) ^^^ (not32 e &&& g)
      let maj := (a &&& b) ^^^ (a &&& c) ^^^ (b &&& c)
      let t1 := w32 (h + bsig1 e + ch + k + wt)
      let t2 := w32 (bsig0 a + maj)
      [w32 (t1 + t2), a, b, c, w32 (d + t1), e, f, g]
  | s => s

/-- Iterated compression rounds over paired round constants and
schedule words. -/
def shaRounds : List Nat → List Nat → List Nat → List Nat
  | k :: ks, wt :: ws, s => shaRounds ks ws (shaRound k wt s)
  | _, _, s => s

/-- Processing of one 64-byte chunk into the running hash state. -/
def shaChunk (h : List Nat) (chunk : List Nat) : List Nat :=
  let w := extendW 48 (bytesToWords chunk)
  let s := shaRounds shaK w h
  List.zipWith (fun x y => w32 (x + y)) h s

/-- Processing of `n` successive 64-byte chunks. -/
def shaChunks : Nat → List Nat → List Nat → List Nat
  | 0, h, _ => h
  | n + 1, h, bytes => shaChunks n (shaChunk h (bytes.take 64)) (bytes.drop 64)

/-- SHA-256 digest (32 bytes) of a byte list. -/
def sha256 (msg : List Nat) : List Nat :=
  let p := shaPad msg
  let hh := shaChunks (p.length / 64) shaH0 p
  (hh.map (beBytes 4)).flatten

/-! ## HMAC-SHA256 and Base64 (crypto-js semantics) -/

/-- HMAC-SHA256 of `msg` under `key`, block size 64 bytes. -/
def hmacSHA256 (key msg : List Nat) : List Nat :=
  let k0 := if key.length > 64 then sha256 key else key
  let kp := k0 ++ List.replicate (64 - k0.length) 0
  let ipadded := kp.map (fun b => b ^^^ 54)
  let opadded := kp.map (fun b => b ^^^ 92)
  sha256 (opadded ++ sha256 (ipadded ++ msg))

/-- Base64 alphabet. -/
def b64Alphabet : List Char :=
  "ABCDEFGHIJKLMNOPQRSTUVWXYZabcdefghijklmnopqrstuvwxyz0123456789+/".data

/-- Character of the Base64 alphabet at index `n`. -/
def b64Char (n : Nat) : Char := b64Alphabet.getD n 'A'

/-- Base64 encoding of a byte list, with `=` padding. -/
def b64Encode : List Nat → List Char
  | a :: b :: c :: rest =>
      let n := a * 65536 + b * 256 + c
      b64Char (n / 262144) :: b64Char (n / 4096 % 64) ::
        b64Char (n / 64 % 64) :: b64Char (n % 64) :: b64Encode rest
  | [a, b] =>
      let n := a * 65536 + b * 256
      [b64Char (n / 262144), b64Char (n / 4096 % 64), b64Char (n / 64 % 64), '=']
  | [a] =>
      let n := a * 65536
      [b64Char (n / 262144), b64Char (n / 4096 % 64), '=', '=']
  | [] => []

/-- Base64 string of a byte list, the composite crypto-js performs in
CryptoJS.enc.Base64.stringify. -/
def b64Stringify (bytes : List Nat) : String := String.mk (b64Encode bytes)

/-! ## The signer (src/utils/bitgetApi.ts, generateSignature) -/

/-- Semantics of the JavaScript expression `s || h` on strings: the empty
string is falsy, so it falls through to the default. -/
def jsOrDefault (s d : String) : String := if s.isEmpty then d else s

/-- Upper-casing of method.toUpperCase(), character by character over
the ASCII letter range relevant to HTTP method names. -/
def jsToUpperCase (s : String) : String := String.mk (s.data.map Char.toUpper)

/-- Translation of generateSignature from src/utils/bitgetApi.ts: the
message is timestamp ++ upper-cased method ++ path ++ query ++ body, the
signature its HMAC-SHA256 under the secret, Base64-encoded. -/
def generateSignature (method requestPath queryString body timestamp
    secretKey : String) : String :=
  let normalizedMethod := jsToUpperCase method
  let normalizedPath := requestPath
  let normalizedQuery := jsOrDefault queryString ""
  let normalizedBody := jsOrDefault body ""
  let message :=
    timestamp ++ normalizedMethod ++ normalizedPath ++ normalizedQuery ++
      normalizedBody
  b64Stringify (hmacSHA256 (utf8Bytes secretKey) (utf8Bytes message))

/-- Message the signer authenticates, written as the plain concatenation
the specification describes. -/
def signedMessage (method requestPath queryString body timestamp : String) :
    String :=
  timestamp ++ jsToUpperCase method ++ requestPath ++ queryString ++ body

/-! ## Compact JSON serialization (JSON.stringify) -/

/-- JSON values, restricted to the shapes this code serializes: strings,
arrays and objects with insertion-ordered fields. -/
inductive JsonValue where
  | str (s : String)
  | arr (elems : List JsonValue)
  | obj (fields : List (String × JsonValue))

/-- Lowercase hexadecimal digit. -/
def hexLower (n : Nat) : Char :=
  if n < 10 then Char.ofNat (48 + n) else Char.ofNat (87 + n)

/-- Escaping of one character inside a JSON string literal, following
JSON.stringify: quote and backslash escaped, control characters as the
short escapes or lowercase \u00xx. -/
def jsonEscapeChar (c : Char) : List Char :=
  if c = '"' then ['\\', '"']
  else if c = '\\' then ['\\', '\\']
  else if c.toNat < 32 then
    if c.toNat = 8 then ['\\', 'b']
    else if c.toNat = 9 then ['\\', 't']
    else if c.toNat = 10 then ['\\', 'n']
    else if c.toNat = 12 then ['\\', 'f']
    else if c.toNat = 13 then ['\\', 'r']
    else ['\\', 'u', '0', '0', hexLower (c.toNat / 16), hexLower (c.toNat % 16)]
  else [c]

/-- JSON string literal for `s`, quotes included. -/
def jsonQuote (s : String) : String :=
  "\"" ++ String.mk (s.data.map jsonEscapeChar).flatten ++ "\""

mutual

/-- Compact JSON.stringify: no whitespace, object fields in insertion
order. -/
def JsonValue.stringify : JsonValue → String
  | .str s => jsonQuote s
  | .arr es => "[" ++ JsonValue.stringifyElems es ++ "]"
  | .obj fs =>
      String.singleton (Char.ofNat 123) ++ JsonValue.stringifyFields fs ++
        String.singleton (Char.ofNat 125)

/-- Comma-separated serialization of array elements. -/
def JsonValue.stringifyElems : List JsonValue → String
  | [] => ""
  | [e] => JsonValue.stringify e
  | e :: rest => JsonValue.stringify e ++ "," ++ JsonValue.stringifyElems rest

/-- Comma-separated serialization of object fields. -/
def JsonValue.stringifyFields : List (String × JsonValue) → String
  | [] => ""
  | [(k, v)] => jsonQuote k ++ ":" ++ JsonValue.stringify v
  | (k, v) :: rest =>
      jsonQuote k ++ ":" ++ JsonValue.stringify v ++ "," ++
        JsonValue.stringifyFields rest

end

/-! ## URLSearchParams serialization -/

/-- Uppercase hexadecimal digit. -/
def hexUpper (n : Nat) : Char :=
  if n < 10 then Char.ofNat (48 + n) else Char.ofNat (55 + n)

/-- Encoding of one byte under application/x-www-form-urlencoded, the
serializer URLSearchParams.toString uses: space becomes +, alphanumerics
and * - . _ pass through, anything else is percent-escaped. -/
def formEncodeByte (b : Nat) : List Char :=
  if b = 32 then ['+']
  else if (48 ≤ b ∧ b ≤ 57) ∨ (65 ≤ b ∧ b ≤ 90) ∨ (97 ≤ b ∧ b ≤ 122) ∨
      b = 42 ∨ b = 45 ∨ b = 46 ∨ b = 95 then [Char.ofNat b]
  else ['%', hexUpper (b / 16), hexUpper (b % 16)]

/-- Form-urlencoded encoding of a string via its UTF-8 bytes. -/
def formEncode (s : String) : String :=
  String.mk ((utf8Bytes s).map formEncodeByte).flatten

/-- Serialization of key/value pairs in insertion order, the result of
URLSearchParams(pairs).toString(). -/
def serializeParams (ps : List (String × String)) : String :=
  String.intercalate "&" (ps.map fun kv => formEncode kv.1 ++ "=" ++ formEncode kv.2)

/-! ## The data model of src/utils/bitgetApi.ts -/

/-- Account credentials, interface BitgetAccount. -/
structure BitgetAccount where
  id : String
  name : String
  apiKey : String
  apiSecret : String
  passphrase : String
  enabled : Bool
deriving DecidableEq

/-- Balance snapshot, interface BitgetAccountBalance. -/
structure BitgetAccountBalance where
  marginCoin : String
  locked : String
  available : String
  crossMaxAvailable : String
  equity : String
  usdtEquity : String
  btcEquity : String
  crossRiskRate : String
  crossMarginLeverage : String
  fixedMaxAvailable : String
  maxTransferOut : String
  accountId : String
  unrealizedPL : String
  bonus : String
deriving DecidableEq

/-- Open position, interface BitgetPosition. -/
structure BitgetPosition where
  marginCoin : String
  symbol : String
  holdSide : String
  openDelegateCount : String
  margin : String
  available : String
  locked : String
  total : String
  leverage : String
  achievedProfits : String
  averageOpenPrice : String
  marginMode : String
  holdMode : String
  unrealizedPL : String
  liquidationPrice : String
  keepMarginRate : String
  marketPrice : String
  cTime : String
deriving DecidableEq

/-- Open order, interface BitgetOrder. -/
structure BitgetOrder where
  userId : String
  symbol : String
  orderId : String
  clientOid : String
  price : String
  size : String
  orderType : String
  side : String
  status : String
  priceAvg : String
  baseVolume : String
  quoteVolume : String
  enterPointSource : String
  feeDetail : String
  orderSource : String
  cTime : String
  uTime : String
deriving DecidableEq

/-! ## The request client (createHeaders and makeApiRequest) -/

/-- HTTP method, the literal type GET | POST of makeApiRequest. -/
inductive HttpMethod where
  | get
  | post
deriving DecidableEq

/-- Wire name of the method. -/
def HttpMethod.name : HttpMethod → String
  | .get => "GET"
  | .post => "POST"

/-- Translation of createHeaders: the six headers attached to every
authenticated request, with the signature over exactly the serialized
query and body strings it receives. Date.now() is the explicit
`timestamp` argument. -/
def createHeaders (method requestPath queryString body : String)
    (account : BitgetAccount) (timestamp : String) : List (String × String) :=
  let signature :=
    generateSignature method requestPath queryString body timestamp
      account.apiSecret
  [("ACCESS-KEY", account.apiKey),
   ("ACCESS-SIGN", signature),
   ("ACCESS-TIMESTAMP", timestamp),
   ("ACCESS-PASSPHRASE", account.passphrase),
   ("Content-Type", "application/json"),
   ("locale", "en-US")]

/-- Outgoing request as handed to fetch: URL, method, headers, and the
body (undefined on GET). -/
structure HttpRequest where
  url : String
  method : String
  headers : List (String × String)
  body : Option String
deriving DecidableEq

/-- Query-string construction in makeApiRequest: a leading ? plus the
URLSearchParams serialization when parameters are present, the empty
string otherwise. -/
def buildQueryString (params : Option (List (String × String))) : String :=
  match params with
  | some ps => if ps.length > 0 then "?" ++ serializeParams ps else ""
  | none => ""

/-- Body string makeApiRequest serializes: compact JSON.stringify of the
body for a POST that has one, the empty string otherwise. -/
def requestBodyString (method : HttpMethod) (body : Option JsonValue) : String :=
  match method, body with
  | .post, some b => JsonValue.stringify b
  | _, _ => ""

/-- Request-building half of makeApiRequest (lines 168 to 203 of
src/utils/bitgetApi.ts): serializes the query and the body once, signs
those strings, and transmits the same strings in the URL and HTTP body.
The base URL is the empty string (proxy). -/
def makeApiRequestBuild (account : BitgetAccount) (method : HttpMethod)
    (endpoint : String) (params : Option (List (String × String)))
    (body : Option JsonValue) (timestamp : String) : HttpRequest :=
  let baseUrl := ""
  let requestPath := endpoint
  let queryString := buildQueryString params
  let requestBody := requestBodyString method body
  let headers :=
    createHeaders method.name requestPath queryString requestBody account
      timestamp
  { url := baseUrl ++ requestPath ++ queryString
    method := method.name
    headers := headers
    body := if method = .post then some requestBody else none }

/-! ## Response handling -/

/-- Exchange envelope: code, msg, data. -/
structure Envelope (α : Type) where
  code : String
  msg : String
  data : α
deriving DecidableEq

/-- Outcome the network produced for one request: fetch (or JSON
parsing) threw, or a response arrived with an HTTP status, its raw text,
and the decoded envelope. -/
inductive NetResult (α : Type) where
  | thrown (msg : String)
  | response (status : Nat) (text : String) (env : Envelope α)
deriving DecidableEq

/-- Failure of an authenticated call, matching the Error values the
TypeScript code throws. -/
inductive ApiFailure where
  | exn (msg : String)
  | httpError (status : Nat) (body : String)
  | apiError (msg : String)
deriving DecidableEq

/-- response.ok of fetch: status in the 2xx range. -/
def responseOk (status : Nat) : Bool := 200 ≤ status && status ≤ 299

/-- Response-handling half of makeApiRequest: a thrown exception
propagates; a non-2xx status throws an HTTP error carrying the status
and the raw body; otherwise the parsed envelope is returned with no
code check. -/
def makeApiRequestResult {α : Type} : NetResult α → Except ApiFailure (Envelope α)
  | .thrown m => .error (.exn m)
  | .response status text env =>
      if responseOk status then .ok env
      else .error (.httpError status text)

/-- Translation of getAccountBalance: envelope code other than 00000
throws an API error with the envelope message, else the data field. -/
def getAccountBalance (r : NetResult (List BitgetAccountBalance)) :
    Except ApiFailure (List BitgetAccountBalance) :=
  match makeApiRequestResult r with
  | .error e => .error e
  | .ok response =>
      if response.code ≠ "00000" then .error (.apiError response.msg)
      else .ok response.data

/-- Translation of getPositions, same envelope handling as the balance
call. -/
def getPositions (r : NetResult (List BitgetPosition)) :
    Except ApiFailure (List BitgetPosition) :=
  match makeApiRequestResult r with
  | .error e => .error e
  | .ok response =>
      if response.code ≠ "00000" then .error (.apiError response.msg)
      else .ok response.data

/-- Translation of getOrders: the whole call is wrapped in try/catch, a
non-success envelope code returns the empty list, and any thrown error
(network or HTTP) also returns the empty list. -/
def getOrders (r : NetResult (List BitgetOrder)) : List BitgetOrder :=
  match makeApiRequestResult r with
  | .error _ => []
  | .ok response =>
      if response.code ≠ "00000" then []
      else response.data

/-- Payload of the cancel-order envelope. -/
structure CancelOrderData where
  orderId : String
deriving DecidableEq

/-- Translation of cancelOrder: same error handling as the balance call,
but the success value is the constant true, not the envelope data. -/
def cancelOrder (r : NetResult CancelOrderData) : Except ApiFailure Bool :=
  match makeApiRequestResult r with
  | .error e => .error e
  | .ok response =>
      if response.code ≠ "00000" then .error (.apiError response.msg)
      else .ok true

/-! ## JavaScript parseFloat

Modelled exactly: the numeric prefix of the string is parsed per the
StrDecimalLiteral grammar (optional sign, digits, optional fraction,
optional exponent, or Infinity), whitespace skipped. A finite result is
kept as an exact unnormalized decimal fraction num / 10 ^ scale; no IEEE
rounding or underflow is applied to the value. -/

/-- Result of parseFloat: NaN when no numeric prefix exists, signed
infinity, or the finite value num / 10 ^ scale. -/
inductive ParseFloatResult where
  | nan
  | infinite (neg : Bool)
  | finite (num : Int) (scale : Nat)
deriving DecidableEq

/-- Exact rational value of a finite parse result. -/
def ParseFloatResult.val : ParseFloatResult → Option ℚ
  | .finite num scale => some ((num : ℚ) / (10 : ℚ) ^ scale)
  | _ => none

/-- Whitespace skipped by parseFloat. -/
def isJsSpace (c : Char) : Bool :=
  c == ' ' || c == '\t' || c == '\n' || c == '\r' ||
    c.toNat == 11 || c.toNat == 12

/-- Value of a digit string. -/
def digitsToNat (ds : List Char) : Nat :=
  ds.foldl (fun acc c => acc * 10 + (c.toNat - 48)) 0

/-- Optional leading sign; true means negative. -/
def splitSign : List Char → Bool × List Char
  | '-' :: r => (true, r)
  | '+' :: r => (false, r)
  | r => (false, r)

/-- Exponent part after the letter e: a signed digit string, or zero
when no digits follow (the letter is then not part of the literal). -/
def parseExpPart (cs : List Char) : Int :=
  let sr := splitSign cs
  let ds := sr.2.takeWhile Char.isDigit
  if ds.isEmpty then 0
  else if sr.1 then -(digitsToNat ds : Int) else (digitsToNat ds : Int)

/-- JavaScript parseFloat on a string, as an exact rational. -/
def jsParseFloat (s : String) : ParseFloatResult :=
  let cs := s.data.dropWhile isJsSpace
  let sr := splitSign cs
  let neg := sr.1
  let cs1 := sr.2
  if cs1.take 8 = "Infinity".data then .infinite neg
  else
    let intDs := cs1.takeWhile Char.isDigit
    let rest1 := cs1.drop intDs.length
    let fracSplit :=
      match rest1 with
      | '.' :: r => (r.takeWhile Char.isDigit, r.dropWhile Char.isDigit)
      | r => (([] : List Char), r)
    let fracDs := fracSplit.1
    let rest2 := fracSplit.2
    if intDs.isEmpty && fracDs.isEmpty then .nan
    else
      let expVal : Int :=
        match rest2 with
        | c :: r => if c = 'e' ∨ c = 'E' then parseExpPart r else 0
        | [] => 0
      let mantissa : Nat :=
        digitsToNat intDs * 10 ^ fracDs.length + digitsToNat fracDs
      let num0 : Int :=
        if 0 ≤ expVal then (mantissa : Int) * 10 ^ expVal.toNat
        else (mantissa : Int)
      let scale : Nat :=
        if 0 ≤ expVal then fracDs.length
        else fracDs.length + (-expVal).toNat
      .finite (if neg then -num0 else num0) scale

/-- Comparison parseFloat(s) !== 0 of the dashboard filter: NaN and the
infinities are not equal to zero; a finite value num / 10 ^ scale is
zero exactly when its numerator is. -/
def jsParseFloatNeZero (s : String) : Bool :=
  match jsParseFloat s with
  | .nan => true
  | .infinite _ => true
  | .finite num _ => num != 0

/-! ## The dashboard position filter (src/App.tsx) -/

/-- Translation of getApiSymbol: display symbol to exchange instrument
id, with the identity as fallback. -/
def getApiSymbol (displaySymbol : String) : String :=
  if displaySymbol = "BTCUSD.P" then "BTCUSDT_UMCBL"
  else if displaySymbol = "ETHUSD.P" then "ETHUSDT_UMCBL"
  else if displaySymbol = "BNBUSDT.P" then "BNBUSDT_UMCBL"
  else displaySymbol

/-- Predicate of the filter at src/App.tsx lines 1037 to 1043: the
position matches the selected symbol, total is truthy (a nonempty
string), and parseFloat(total) !== 0. -/
def positionDisplayed (selectedSymbol : String) (p : BitgetPosition) : Bool :=
  p.symbol == getApiSymbol selectedSymbol &&
    !p.total.isEmpty && jsParseFloatNeZero p.total

/-- Position list the dashboard renders for the selected symbol. -/
def filteredPositions (positions : List BitgetPosition)
    (selectedSymbol : String) : List BitgetPosition :=
  positions.filter (positionDisplayed selectedSymbol)

/-! ## The account state table and the fetch cycle (src/App.tsx) -/

/-- Entry of the accountsData state for one account id. -/
structure AccountData where
  account : BitgetAccount
  balance : Option BitgetAccountBalance
  positions : List BitgetPosition
  orders : List BitgetOrder
  loading : Bool
  error : Option String
deriving DecidableEq

/-- State table keyed by account id; none is an id never written. -/
def AccountsTable : Type := String → Option AccountData

/-- Functional write of one entry. -/
def setEntry (t : AccountsTable) (id : String) (d : AccountData) :
    AccountsTable :=
  fun i => if i = id then some d else t i

/-- Functional update of one entry when present. -/
def modifyEntry (t : AccountsTable) (id : String)
    (f : AccountData → AccountData) : AccountsTable :=
  fun i => if i = id then (t id).map f else t i

/-- Loading reset written for each enabled account at the start of a
fetch cycle: loading true, balance null, positions and orders empty; the
object spread keeps a previous error field when the entry existed. -/
def resetEntry (a : BitgetAccount) (prev : Option AccountData) : AccountData :=
  { account := a
    balance := none
    positions := []
    orders := []
    loading := true
    error := match prev with | some d => d.error | none => none }

/-- First half of fetchAccountData: the loading reset applied to every
enabled account in order. -/
def resetLoading (enabledAccounts : List BitgetAccount) (t : AccountsTable) :
    AccountsTable :=
  enabledAccounts.foldl (fun acc a => setEntry acc a.id (resetEntry a (acc a.id))) t

/-- Network outcomes one account's refresh encounters, one per
endpoint. -/
structure FetchOutcomes where
  balanceResult : NetResult (List BitgetAccountBalance)
  positionsResult : NetResult (List BitgetPosition)
  ordersResult : NetResult (List BitgetOrder)
deriving DecidableEq

/-- Message of the caught error, as error.message of the thrown Error
values. -/
def ApiFailure.message : ApiFailure → String
  | .exn m => m
  | .httpError status body =>
      "HTTP error! status: " ++ toString status ++ ", body: " ++ body
  | .apiError m => "API Error: " ++ m

/-- State update of the success path: spread of the previous entry with
balance, positions, orders replaced and loading cleared. The reset phase
guarantees the entry exists; the none branch completes the degenerate
spread of an absent entry with the account at hand. -/
def applySuccess (prev : Option AccountData) (a : BitgetAccount)
    (balance : Option BitgetAccountBalance) (positions : List BitgetPosition)
    (orders : List BitgetOrder) : AccountData :=
  match prev with
  | some d =>
      { d with balance := balance, positions := positions, orders := orders,
               loading := false }
  | none =>
      { account := a, balance := balance, positions := positions,
        orders := orders, loading := false, error := none }

/-- State update of the catch branch: spread of the previous entry with
loading cleared and the error message recorded. -/
def applyError (prev : Option AccountData) (a : BitgetAccount) (msg : String) :
    AccountData :=
  match prev with
  | some d => { d with loading := false, error := some msg }
  | none =>
      { account := a, balance := none, positions := [], orders := [],
        loading := false, error := some msg }

/-- Refresh of one account, the body of the for-loop of
fetchAccountData: balance then positions propagate failures to the
catch branch, the orders call never fails, and the state table is
written once, at the account's own id. -/
def fetchAccountStep (a : BitgetAccount) (net : FetchOutcomes)
    (t : AccountsTable) : AccountsTable :=
  match getAccountBalance net.balanceResult with
  | .error e => setEntry t a.id (applyError (t a.id) a e.message)
  | .ok balanceArray =>
      match getPositions net.positionsResult with
      | .error e => setEntry t a.id (applyError (t a.id) a e.message)
      | .ok positionsData =>
          let balance := balanceArray.head?
          let ordersData := getOrders net.ordersResult
          setEntry t a.id (applySuccess (t a.id) a balance positionsData ordersData)

/-- Value fetchAccountStep writes at the account's own id, as a
function of the previous entry there: the step reads and writes the
table only at that id. -/
def stepEntry (a : BitgetAccount) (net : FetchOutcomes)
    (prev : Option AccountData) : AccountData :=
  match getAccountBalance net.balanceResult with
  | .error e => applyError prev a e.message
  | .ok balanceArray =>
      match getPositions net.positionsResult with
      | .error e => applyError prev a e.message
      | .ok positionsData =>
          applySuccess prev a balanceArray.head? positionsData
            (getOrders net.ordersResult)

/-- Sequential refresh of a list of accounts. -/
def runFetchSteps (accounts : List BitgetAccount)
    (net : String → FetchOutcomes) (t : AccountsTable) : AccountsTable :=
  accounts.foldl (fun acc a => fetchAccountStep a (net a.id) acc) t

/-- Translation of fetchAccountData: nothing happens without enabled
accounts; otherwise every enabled account is reset to loading first, and
each is then refreshed in order. The per-account network outcomes are
the explicit `net` argument, keyed by account id. -/
def fetchAccountData (configAccounts : List BitgetAccount)
    (net : String → FetchOutcomes) (t : AccountsTable) : AccountsTable :=
  if configAccounts.isEmpty then t
  else
    let enabledAccounts := configAccounts.filter (fun a => a.enabled)
    if enabledAccounts.isEmpty then t
    else runFetchSteps enabledAccounts net (resetLoading enabledAccounts t)

/-- Translation of handleCancelOrder: a missing entry returns at once; a
failed cancel leaves the table untouched (the error is only logged); a
successful cancel filters the one order id out of that account's order
list. -/
def handleCancelOrder (order : BitgetOrder) (accountId : String)
    (net : NetResult CancelOrderData) (t : AccountsTable) : AccountsTable :=
  match t accountId with
  | none => t
  | some _ =>
      match cancelOrder net with
      | .error _ => t
      | .ok _ =>
          modifyEntry t accountId (fun d =>
            { d with orders := d.orders.filter (fun o => o.orderId != order.orderId) })

/-! ## The WebSocket price feed (src/App.tsx, connectWebSocket) -/

/-- Symbols the feed subscribes to, api id paired with display name. -/
def wsSymbols : List (String × String) :=
  [("BTCUSDT_UMCBL", "BTCUSD.P"),
   ("ETHUSDT_UMCBL", "ETHUSD.P"),
   ("BNBUSDT_UMCBL", "BNBUSDT.P")]

/-- Subscription control message sent for one symbol channel, the
JSON.stringify of the object built at src/App.tsx lines 200 to 209. -/
def subscribeMessage (apiSymbol : String) : String :=
  JsonValue.stringify (.obj
    [("op", .str "subscribe"),
     ("args", .arr [.obj
       [("instType", .str "UMCBL"),
        ("channel", .str "ticker"),
        ("instId", .str apiSymbol)]])])

/-- Observable state of the price feed: the connected flag, whether the
keepalive timer runs, the delays of the reconnect timers scheduled so
far, and the control messages sent so far. -/
structure FeedState where
  wsConnected : Bool
  pingActive : Bool
  reconnectDelaysMs : List Nat
  sentMessages : List String
deriving DecidableEq

/-- Stream lifecycle events the handlers react to. -/
inductive FeedEvent where
  | opened
  | closed
deriving DecidableEq

/-- Translation of the ws.onopen and ws.onclose handlers. Open: set the
connected flag, send one subscription per configured symbol, start the
keepalive timer. Close: clear the connected flag, stop the keepalive
timer, and schedule exactly one reconnect after the fixed 5000 ms
delay — unconditionally, with no retry counter or backoff in the
state. -/
def handleFeedEvent (s : FeedState) : FeedEvent → FeedState
  | .opened =>
      { s with wsConnected := true
               sentMessages :=
                 s.sentMessages ++ wsSymbols.map (fun p => subscribeMessage p.1)
               pingActive := true }
  | .closed =>
      { s with wsConnected := false
               pingActive := false
               reconnectDelaysMs := s.reconnectDelaysMs ++ [5000] }

/-- Run of the feed handlers over a trace of lifecycle events. -/
def runFeedEvents (s : FeedState) (events : List FeedEvent) : FeedState :=
  events.foldl handleFeedEvent s

/-! ## The loading invariant of the state table -/

/-- Invariant of one entry: while loading, no stale data is visible. -/
def entryLoadingInv (d : AccountData) : Prop :=
  d.loading = true → d.balance = none ∧ d.positions = [] ∧ d.orders = []

/-- Invariant of the whole table. -/
def tableLoadingInv (t : AccountsTable) : Prop :=
  ∀ id d, t id = some d → entryLoadingInv d

/-- Table with no entries, the initial accountsData state. -/
def emptyTable : AccountsTable := fun _ => none

/-! ## Concrete fixtures used by the witness theorems -/

/-- Sample enabled account. -/
def wAccount1 : BitgetAccount :=
  ⟨"a1", "Main", "key1", "secret1", "pass1", true⟩

/-- Second sample enabled account. -/
def wAccount2 : BitgetAccount :=
  ⟨"a2", "Hedge", "key2", "secret2", "pass2", true⟩

/-- Sample balance snapshot. -/
def wBalance : BitgetAccountBalance :=
  ⟨"USDT", "0", "100", "100", "100", "100", "0", "0", "10", "100", "100",
   "acct1", "0", "0"⟩

/-- Sample position with zero reported size. -/
def wPositionZero : BitgetPosition :=
  ⟨"USDT", "BTCUSDT_UMCBL", "long", "0", "0", "0", "0", "0", "10", "0",
   "50000", "crossed", "double", "0", "0", "0", "50000", "0"⟩

/-- Sample position with nonzero size. -/
def wPositionLive : BitgetPosition := { wPositionZero with total := "0.5" }

/-- Sample open order. -/
def wOrder1 : BitgetOrder :=
  ⟨"u1", "BTCUSDT_UMCBL", "ord1", "c1", "50000", "0.1", "limit", "open_long",
   "new", "0", "0", "0", "web", "", "normal", "0", "0"⟩

/-- Second sample order, distinct id. -/
def wOrder2 : BitgetOrder := { wOrder1 with orderId := "ord2" }

/-- Network outcomes of one fully successful refresh. -/
def wOutcomesOk : FetchOutcomes :=
  ⟨.response 200 "" ⟨"00000", "", [wBalance]⟩,
   .response 200 "" ⟨"00000", "", [wPositionLive]⟩,
   .response 200 "" ⟨"00000", "", [wOrder1]⟩⟩

/-- Network outcomes where the balance call got HTTP 500. -/
def wOutcomesBalanceFail : FetchOutcomes :=
  ⟨.response 500 "boom" ⟨"00000", "", []⟩,
   .response 200 "" ⟨"00000", "", []⟩,
   .response 200 "" ⟨"00000", "", []⟩⟩

/-- Network outcomes where only the orders call got HTTP 500. -/
def wOutcomesOrdersFail : FetchOutcomes :=
  ⟨.response 200 "" ⟨"00000", "", [wBalance]⟩,
   .response 200 "" ⟨"00000", "", [wPositionLive]⟩,
   .response 500 "oops" ⟨"00000", "", []⟩⟩

/-- Outcome oracle: account a1 fails its balance call, every other
account succeeds. -/
def wNet : String → FetchOutcomes :=
  fun id => if id = "a1" then wOutcomesBalanceFail else wOutcomesOk

/-- Sample table entry holding two orders. -/
def wData1 : AccountData :=
  ⟨wAccount1, none, [], [wOrder1, wOrder2], false, none⟩

/-- Sample table with one populated entry at a1. -/
def wTable : AccountsTable :=
  fun i => if i = "a1" then some wData1 else none

/-- Successful cancel-order network outcome. -/
def wCancelOk : NetResult CancelOrderData :=
  .response 200 "" ⟨"00000", "", ⟨"ord1"⟩⟩

/-- Failed (HTTP 500) cancel-order network outcome. -/
def wCancelFail : NetResult CancelOrderData :=
  .response 500 "down" ⟨"00000", "", ⟨"ord1"⟩⟩

/-- Order whose id appears in no sample list. -/
def wOrderUnknown : BitgetOrder := { wOrder1 with orderId := "nope" }

/-! ## Helper lemmas -/

/-- Normalization with the JS or-empty default is the identity on
strings: the empty string maps to itself. -/
theorem jsOrDefault_empty (s : String) : jsOrDefault s "" = s := by
  unfold jsOrDefault
  by_cases h : s.isEmpty
  · rw [if_pos h, (String.isEmpty_iff s).mp h]
  · rw [if_neg h]

/-- The signer applied to any inputs is the Base64 HMAC of the
signedMessage concatenation. -/
theorem generateSignature_eq_signedMessage (m p q b ts sk : String) :
    generateSignature m p q b ts sk =
      b64Stringify (hmacSHA256 (utf8Bytes sk)
        (utf8Bytes (signedMessage m p q b ts))) := by
  simp only [generateSignature, signedMessage, jsOrDefault_empty]

/-! ## C1 -/

/-- C1: for every tuple (method, requestPath, queryString, body,
timestamp, secret), generateSignature returns the Base64 encoding of the
HMAC-SHA256 digest, keyed by the secret, of the concatenation
timestamp ++ upperCase(method) ++ requestPath ++ queryString ++ body; an
empty query or body enters the concatenation as the empty string rather
than being omitted. -/
theorem generateSignature_is_hmac_of_concat (m p q b ts sk : String) :
    generateSignature m p q b ts sk =
      b64Stringify (hmacSHA256 (utf8Bytes sk)
        (utf8Bytes (ts ++ jsToUpperCase m ++ p ++ q ++ b))) :=
  generateSignature_eq_signedMessage m p q b ts sk

/-! ## C2 -/

/-- C2(counterexample): the tuples differ in exactly one field — the
method, "get" against "GET" — yet the produced signatures are
identical, because the signer upper-cases the method before signing. -/
theorem generateSignature_method_case_counterexample :
    "get" ≠ "GET" ∧
    generateSignature "get" "/api/mix/v1/account/accounts" "" ""
        "1700000000000" "k" =
      generateSignature "GET" "/api/mix/v1/account/accounts" "" ""
        "1700000000000" "k" := by
  refine ⟨by decide, ?_⟩
  rw [generateSignature_eq_signedMessage, generateSignature_eq_signedMessage]
  rfl

/-- C2(amended): the signer is deterministic; two methods equal up to
case sign identically; and for any two tuples differing in exactly one
field the signed messages differ — for the method field, exactly when
the upper-cased methods differ — hence the signatures differ unless
HMAC-SHA256 collides on the two distinct messages. -/
theorem generateSignature_sensitivity
    (m p q b ts sk m' p' q' b' ts' : String) :
    generateSignature m p q b ts sk = generateSignature m p q b ts sk ∧
    (jsToUpperCase m = jsToUpperCase m' →
      generateSignature m p q b ts sk = generateSignature m' p q b ts sk) ∧
    (jsToUpperCase m ≠ jsToUpperCase m' →
      signedMessage m p q b ts ≠ signedMessage m' p q b ts) ∧
    (p ≠ p' → signedMessage m p q b ts ≠ signedMessage m p' q b ts) ∧
    (q ≠ q' → signedMessage m p q b ts ≠ signedMessage m p q' b ts) ∧
    (b ≠ b' → signedMessage m p q b ts ≠ signedMessage m p q b' ts) ∧
    (ts ≠ ts' → signedMessage m p q b ts ≠ signedMessage m p q b ts') := by
  refine ⟨rfl, ?_, ?_, ?_, ?_, ?_, ?_⟩
  · intro hm
    rw [generateSignature_eq_signedMessage, generateSignature_eq_signedMessage]
    unfold signedMessage
    rw [hm]
  · intro hm h
    apply hm
    have hd := congrArg String.data h
    simp only [signedMessage, String.data_append] at hd
    exact String.ext (List.append_cancel_left (List.append_cancel_right
      (List.append_cancel_right (List.append_cancel_right hd))))
  · intro hp h
    apply hp
    have hd := congrArg String.data h
    simp only [signedMessage, String.data_append] at hd
    exact String.ext (List.append_cancel_left
      (List.append_cancel_right (List.append_cancel_right hd)))
  · intro hq h
    apply hq
    have hd := congrArg String.data h
    simp only [signedMessage, String.data_append] at hd
    exact String.ext (List.append_cancel_left (List.append_cancel_right hd))
  · intro hb h
    apply hb
    have hd := congrArg String.data h
    simp only [signedMessage, String.data_append] at hd
    exact String.ext (List.append_cancel_left hd)
  · intro hts h
    apply hts
    have hd := congrArg String.data h
    simp only [signedMessage, String.data_append] at hd
    exact String.ext (List.append_cancel_right (List.append_cancel_right
      (List.append_cancel_right (List.append_cancel_right hd))))

/-- Witness for generateSignature_sensitivity at concrete inputs: case
variants of the method sign identically, and a change of method, path,
query, body or timestamp alone changes the signed message. -/
theorem generateSignature_sensitivity_witness :
    generateSignature "get" "/a" "" "" "1" "k" =
        generateSignature "GET" "/a" "" "" "1" "k" ∧
    signedMessage "GET" "/a" "" "" "1" ≠ signedMessage "POST" "/a" "" "" "1" ∧
    signedMessage "GET" "/a" "" "" "1" ≠ signedMessage "GET" "/b" "" "" "1" ∧
    signedMessage "GET" "/a" "?x=1" "" "1" ≠
        signedMessage "GET" "/a" "?x=2" "" "1" ∧
    signedMessage "GET" "/a" "" "B1" "1" ≠ signedMessage "GET" "/a" "" "B2" "1" ∧
    signedMessage "GET" "/a" "" "" "1" ≠ signedMessage "GET" "/a" "" "" "2" :=
  ⟨(generateSignature_sensitivity "get" "/a" "" "" "1" "k" "GET" "/a" "" "" "1").2.1
      (by decide),
   (generateSignature_sensitivity "GET" "/a" "" "" "1" "k" "POST" "/a" "" "" "1").2.2.1
      (by decide),
   (generateSignature_sensitivity "GET" "/a" "" "" "1" "k" "GET" "/b" "" "" "1").2.2.2.1
      (by decide),
   (generateSignature_sensitivity "GET" "/a" "?x=1" "" "1" "k" "GET" "/a" "?x=2" "" "1").2.2.2.2.1
      (by decide),
   (generateSignature_sensitivity "GET" "/a" "" "B1" "1" "k" "GET" "/a" "" "B2" "1").2.2.2.2.2.1
      (by decide),
   (generateSignature_sensitivity "GET" "/a" "" "" "1" "k" "GET" "/a" "" "" "2").2.2.2.2.2.2
      (by decide)⟩

/-! ## C3 -/

/-- C3: for every request makeApiRequest issues, the query string (the
URL-encoded pairs in insertion order behind a ? when parameters are
present, empty otherwise) and the body string (compact JSON for a POST
with a body, empty string otherwise) are serialized once, and those
identical strings are fed to the signer (through createHeaders, visible
in the ACCESS-SIGN header) and used in the transmitted URL and HTTP
body. -/
theorem makeApiRequest_single_serialization (account : BitgetAccount)
    (method : HttpMethod) (endpoint : String)
    (params : Option (List (String × String))) (body : Option JsonValue)
    (timestamp : String) :
    (makeApiRequestBuild account method endpoint params body timestamp).url =
        endpoint ++ buildQueryString params ∧
    (makeApiRequestBuild account method endpoint params body timestamp).body =
        (if method = .post then some (requestBodyString method body) else none) ∧
    (makeApiRequestBuild account method endpoint params body timestamp).headers =
        createHeaders method.name endpoint (buildQueryString params)
          (requestBodyString method body) account timestamp ∧
    ((makeApiRequestBuild account method endpoint params body
          timestamp).headers).lookup "ACCESS-SIGN" =
        some (generateSignature method.name endpoint (buildQueryString params)
          (requestBodyString method body) timestamp account.apiSecret) := by
  refine ⟨?_, rfl, rfl, rfl⟩
  show "" ++ endpoint ++ buildQueryString params =
      endpoint ++ buildQueryString params
  rw [String.empty_append]

/-! ## C4 -/

/-- Boolean 2xx test of fetch agrees with the arithmetic statement. -/
theorem responseOk_iff (status : Nat) :
    responseOk status = true ↔ (200 ≤ status ∧ status ≤ 299) := by
  simp [responseOk]

/-- C4(counterexample): on a 2xx success envelope, cancelOrder returns
the constant true and discards the envelope's data payload — two
distinct payloads produce the identical result — so the success clause
of the claim, that every one of the three calls returns the payload from
the data field, fails for cancelOrder. -/
theorem cancelOrder_payload_counterexample :
    cancelOrder (.response 200 "" ⟨"00000", "success", ⟨"A"⟩⟩) = .ok true ∧
    cancelOrder (.response 200 "" ⟨"00000", "success", ⟨"B"⟩⟩) = .ok true ∧
    (⟨"A"⟩ : CancelOrderData) ≠ ⟨"B"⟩ :=
  ⟨rfl, rfl, by decide⟩

/-- C4(amended): for every authenticated call, a non-2xx HTTP status
fails with a transport error carrying the status code and the raw
response body; a 2xx status with an envelope code other than 00000 fails
with an API error carrying the envelope message; on success,
getAccountBalance and getPositions return the envelope's data payload,
while cancelOrder returns the constant true. -/
theorem authenticated_call_envelope_handling
    (status : Nat) (text : String)
    (envB : Envelope (List BitgetAccountBalance))
    (envP : Envelope (List BitgetPosition))
    (envC : Envelope CancelOrderData) :
    (¬ (200 ≤ status ∧ status ≤ 299) →
      getAccountBalance (.response status text envB) =
          .error (.httpError status text) ∧
      getPositions (.response status text envP) =
          .error (.httpError status text) ∧
      cancelOrder (.response status text envC) =
          .error (.httpError status text)) ∧
    ((200 ≤ status ∧ status ≤ 299) →
      (envB.code ≠ "00000" →
        getAccountBalance (.response status text envB) =
          .error (.apiError envB.msg)) ∧
      (envP.code ≠ "00000" →
        getPositions (.response status text envP) =
          .error (.apiError envP.msg)) ∧
      (envC.code ≠ "00000" →
        cancelOrder (.response status text envC) =
          .error (.apiError envC.msg)) ∧
      (envB.code = "00000" →
        getAccountBalance (.response status text envB) = .ok envB.data) ∧
      (envP.code = "00000" →
        getPositions (.response status text envP) = .ok envP.data) ∧
      (envC.code = "00000" →
        cancelOrder (.response status text envC) = .ok true)) := by
  constructor
  · intro hbad
    have hok : responseOk status = false := by
      rw [Bool.eq_false_iff]
      exact fun h => hbad ((responseOk_iff status).mp h)
    refine ⟨?_, ?_, ?_⟩ <;>
      simp [getAccountBalance, getPositions, cancelOrder,
        makeApiRequestResult, hok]
  · intro hgood
    have hok : responseOk status = true := (responseOk_iff status).mpr hgood
    refine ⟨?_, ?_, ?_, ?_, ?_, ?_⟩ <;> intro hcode <;>
      simp [getAccountBalance, getPositions, cancelOrder,
        makeApiRequestResult, hok, hcode]

/-- Witness for authenticated_call_envelope_handling: HTTP 500 on the
balance call yields the transport error, a 2xx with a failure envelope
on the positions call yields the API error, and a 2xx success on the
cancel call yields true. -/
theorem authenticated_call_envelope_handling_witness :
    getAccountBalance (.response 500 "oops"
        (⟨"00000", "", []⟩ : Envelope (List BitgetAccountBalance))) =
      .error (.httpError 500 "oops") ∧
    getPositions (.response 200 ""
        (⟨"40001", "bad", []⟩ : Envelope (List BitgetPosition))) =
      .error (.apiError "bad") ∧
    cancelOrder (.response 200 ""
        (⟨"00000", "", ⟨"o1"⟩⟩ : Envelope CancelOrderData)) = .ok true := by
  refine ⟨((authenticated_call_envelope_handling 500 "oops" ⟨"00000", "", []⟩
      ⟨"00000", "", []⟩ ⟨"00000", "", ⟨"o1"⟩⟩).1 (by omega)).1, ?_, ?_⟩
  · exact ((authenticated_call_envelope_handling 200 "" ⟨"00000", "", []⟩
      ⟨"40001", "bad", []⟩ ⟨"00000", "", ⟨"o1"⟩⟩).2 (by omega)).2.1 (by decide)
  · exact ((authenticated_call_envelope_handling 200 "" ⟨"00000", "", []⟩
      ⟨"40001", "bad", []⟩ ⟨"00000", "", ⟨"o1"⟩⟩).2 (by omega)).2.2.2.2.2 rfl

/-! ## Structure of the fetch cycle -/

/-- Reading a table at the id just written. -/
theorem setEntry_same (t : AccountsTable) (id : String) (d : AccountData) :
    setEntry t id d id = some d := by
  simp [setEntry]

/-- Reading a table at any other id. -/
theorem setEntry_other (t : AccountsTable) (id : String) (d : AccountData)
    (id' : String) (h : id' ≠ id) : setEntry t id d id' = t id' := by
  simp [setEntry, h]

/-- One refresh step is a single write at the account's own id, of a
value depending only on the previous entry there. -/
theorem fetchAccountStep_eq (a : BitgetAccount) (net : FetchOutcomes)
    (t : AccountsTable) :
    fetchAccountStep a net t = setEntry t a.id (stepEntry a net (t a.id)) := by
  unfold fetchAccountStep stepEntry
  cases getAccountBalance net.balanceResult with
  | error e => rfl
  | ok ba =>
      cases getPositions net.positionsResult with
      | error e => rfl
      | ok ps => rfl

/-- One refresh step leaves every other id untouched. -/
theorem fetchAccountStep_frame (a : BitgetAccount) (net : FetchOutcomes)
    (t : AccountsTable) (id : String) (h : id ≠ a.id) :
    fetchAccountStep a net t id = t id := by
  rw [fetchAccountStep_eq]
  exact setEntry_other t a.id _ id h

/-- One refresh step writes its own id. -/
theorem fetchAccountStep_own (a : BitgetAccount) (net : FetchOutcomes)
    (t : AccountsTable) :
    fetchAccountStep a net t a.id = some (stepEntry a net (t a.id)) := by
  rw [fetchAccountStep_eq]
  exact setEntry_same t a.id _

/-- Refreshing a list of accounts leaves ids outside the list
untouched. -/
theorem runFetchSteps_not_mem (l : List BitgetAccount)
    (net : String → FetchOutcomes) (t : AccountsTable) (id : String)
    (h : id ∉ l.map (fun x => x.id)) : runFetchSteps l net t id = t id := by
  induction l generalizing t with
  | nil => rfl
  | cons c rest ih =>
      rw [List.map_cons, List.mem_cons] at h
      push_neg at h
      have step : runFetchSteps (c :: rest) net t =
          runFetchSteps rest net (fetchAccountStep c (net c.id) t) := rfl
      rw [step, ih _ h.2]
      exact fetchAccountStep_frame c (net c.id) t id h.1

/-- With distinct ids, each account's final entry is its own step's
result over the initial table, unaffected by the other accounts'
steps. -/
theorem runFetchSteps_mem (l : List BitgetAccount)
    (net : String → FetchOutcomes) (t : AccountsTable) (a : BitgetAccount)
    (ha : a ∈ l) (hnodup : (l.map (fun x => x.id)).Nodup) :
    runFetchSteps l net t a.id = some (stepEntry a (net a.id) (t a.id)) := by
  induction l generalizing t with
  | nil => cases ha
  | cons c rest ih =>
      have step : runFetchSteps (c :: rest) net t =
          runFetchSteps rest net (fetchAccountStep c (net c.id) t) := rfl
      rw [List.map_cons, List.nodup_cons] at hnodup
      rcases List.mem_cons.mp ha with rfl | hmem
      · rw [step, runFetchSteps_not_mem rest net _ a.id hnodup.1,
          fetchAccountStep_own]
      · have hne : a.id ≠ c.id := fun he =>
          hnodup.1 (he ▸ List.mem_map_of_mem (fun x => x.id) hmem)
        rw [step, ih _ hmem hnodup.2,
          fetchAccountStep_frame c (net c.id) t a.id hne]

/-- The loading reset leaves ids outside the enabled list untouched. -/
theorem resetLoading_not_mem (l : List BitgetAccount) (t : AccountsTable)
    (id : String) (h : id ∉ l.map (fun x => x.id)) :
    resetLoading l t id = t id := by
  induction l generalizing t with
  | nil => rfl
  | cons c rest ih =>
      rw [List.map_cons, List.mem_cons] at h
      push_neg at h
      have step : resetLoading (c :: rest) t =
          resetLoading rest (setEntry t c.id (resetEntry c (t c.id))) := rfl
      rw [step, ih _ h.2]
      exact setEntry_other t c.id _ id h.1

/-- With distinct ids, the loading reset writes each enabled account's
reset entry over its previous entry. -/
theorem resetLoading_mem (l : List BitgetAccount) (t : AccountsTable)
    (a : BitgetAccount) (ha : a ∈ l)
    (hnodup : (l.map (fun x => x.id)).Nodup) :
    resetLoading l t a.id = some (resetEntry a (t a.id)) := by
  induction l generalizing t with
  | nil => cases ha
  | cons c rest ih =>
      have step : resetLoading (c :: rest) t =
          resetLoading rest (setEntry t c.id (resetEntry c (t c.id))) := rfl
      rw [List.map_cons, List.nodup_cons] at hnodup
      rcases List.mem_cons.mp ha with rfl | hmem
      · rw [step, resetLoading_not_mem rest _ a.id hnodup.1, setEntry_same]
      · have hne : a.id ≠ c.id := fun he =>
          hnodup.1 (he ▸ List.mem_map_of_mem (fun x => x.id) hmem)
        rw [step, ih _ hmem hnodup.2, setEntry_other t c.id _ a.id hne]

/-- Fields of the success write. -/
theorem applySuccess_fields (prev : Option AccountData) (a : BitgetAccount)
    (b : Option BitgetAccountBalance) (ps : List BitgetPosition)
    (os : List BitgetOrder) :
    (applySuccess prev a b ps os).balance = b ∧
    (applySuccess prev a b ps os).positions = ps ∧
    (applySuccess prev a b ps os).orders = os ∧
    (applySuccess prev a b ps os).loading = false := by
  cases prev <;> simp [applySuccess]

/-- Fields of the error write. -/
theorem applyError_fields (prev : Option AccountData) (a : BitgetAccount)
    (msg : String) :
    (applyError prev a msg).loading = false ∧
    (applyError prev a msg).error = some msg := by
  cases prev <;> simp [applyError]

/-- The fetch cycle unfolds to reset-then-refresh once an enabled
account exists. -/
theorem fetchAccountData_eq (accounts : List BitgetAccount)
    (net : String → FetchOutcomes) (t : AccountsTable)
    (h : accounts.filter (fun a => a.enabled) ≠ []) :
    fetchAccountData accounts net t =
      runFetchSteps (accounts.filter (fun a => a.enabled)) net
        (resetLoading (accounts.filter (fun a => a.enabled)) t) := by
  have h1 : accounts ≠ [] := by
    intro he
    subst he
    simp at h
  unfold fetchAccountData
  rw [if_neg (by simpa [List.isEmpty_iff] using h1),
    if_neg (by simpa [List.isEmpty_iff] using h)]

/-! ## C5 -/

/-- C5: when the balance and position calls of an account's refresh
succeed and the orders fetch fails in any way a failure can occur — the
request threw or returned a non-2xx status (both reach the catch), or a
2xx envelope carried a non-success code — getOrders returns the empty
list, and the account's written entry keeps the fetched balance and
positions while only its orders list is empty. -/
theorem orders_failure_yields_empty (a : BitgetAccount) (net : FetchOutcomes)
    (t : AccountsTable) (ba : List BitgetAccountBalance)
    (ps : List BitgetPosition)
    (hb : getAccountBalance net.balanceResult = .ok ba)
    (hp : getPositions net.positionsResult = .ok ps)
    (hfail : (∃ e, makeApiRequestResult net.ordersResult =
                (.error e : Except ApiFailure (Envelope (List BitgetOrder)))) ∨
             (∃ env, makeApiRequestResult net.ordersResult = .ok env ∧
                env.code ≠ "00000")) :
    getOrders net.ordersResult = [] ∧
    ∃ d, fetchAccountStep a net t a.id = some d ∧
      d.balance = ba.head? ∧ d.positions = ps ∧ d.orders = [] ∧
      d.loading = false := by
  have ho : getOrders net.ordersResult = [] := by
    unfold getOrders
    rcases hfail with ⟨e, he⟩ | ⟨env, he, hc⟩
    · rw [he]
    · rw [he]
      simp [hc]
  have hstep : stepEntry a net (t a.id) =
      applySuccess (t a.id) a ba.head? ps (getOrders net.ordersResult) := by
    unfold stepEntry
    rw [hb, hp]
  refine ⟨ho, applySuccess (t a.id) a ba.head? ps [], ?_, ?_, ?_, ?_, ?_⟩
  · rw [fetchAccountStep_own, hstep, ho]
  · exact (applySuccess_fields _ _ _ _ _).1
  · exact (applySuccess_fields _ _ _ _ _).2.1
  · exact (applySuccess_fields _ _ _ _ _).2.2.1
  · exact (applySuccess_fields _ _ _ _ _).2.2.2

/-- Witness for orders_failure_yields_empty: the orders endpoint alone
answers HTTP 500, the entry keeps the fetched balance and position and
gets an empty orders list. -/
theorem orders_failure_yields_empty_witness :
    getOrders wOutcomesOrdersFail.ordersResult = [] ∧
    ∃ d, fetchAccountStep wAccount2 wOutcomesOrdersFail emptyTable "a2" =
        some d ∧
      d.balance = [wBalance].head? ∧ d.positions = [wPositionLive] ∧
      d.orders = [] ∧ d.loading = false :=
  orders_failure_yields_empty wAccount2 wOutcomesOrdersFail emptyTable
    [wBalance] [wPositionLive] rfl rfl
    (Or.inl ⟨.httpError 500 "oops", rfl⟩)

/-! ## C6 -/

/-- C6: in a fetch cycle over enabled accounts with distinct ids, a
failure of one account's balance or position call writes exactly that
account's entry with the error message recorded and loading cleared
(over the freshly reset data); every other enabled account still gets
the entry its own network outcome produces, over its own reset entry,
unaffected by the failure; and ids outside the enabled set are not
modified at all. -/
theorem fetch_cycle_failure_isolation (accounts : List BitgetAccount)
    (net : String → FetchOutcomes) (t : AccountsTable) (a : BitgetAccount)
    (e : ApiFailure)
    (hnodup : ((accounts.filter (fun x => x.enabled)).map
        (fun x => x.id)).Nodup)
    (ha : a ∈ accounts.filter (fun x => x.enabled))
    (hfail : getAccountBalance (net a.id).balanceResult = .error e ∨
      (∃ ba, getAccountBalance (net a.id).balanceResult = .ok ba ∧
        getPositions (net a.id).positionsResult = .error e)) :
    fetchAccountData accounts net t a.id =
        some { account := a, balance := none, positions := [], orders := [],
               loading := false, error := some e.message } ∧
    (∀ b, b ∈ accounts.filter (fun x => x.enabled) → b.id ≠ a.id →
      fetchAccountData accounts net t b.id =
        some (stepEntry b (net b.id) (some (resetEntry b (t b.id))))) ∧
    (∀ id, id ∉ (accounts.filter (fun x => x.enabled)).map (fun x => x.id) →
      fetchAccountData accounts net t id = t id) := by
  have hne : accounts.filter (fun x => x.enabled) ≠ [] := by
    intro h0
    rw [h0] at ha
    cases ha
  rw [fetchAccountData_eq accounts net t hne]
  set enabled := accounts.filter (fun x => x.enabled) with henb
  refine ⟨?_, ?_, ?_⟩
  · rw [runFetchSteps_mem enabled net _ a ha hnodup,
      resetLoading_mem enabled t a ha hnodup]
    have hstep : stepEntry a (net a.id) (some (resetEntry a (t a.id))) =
        applyError (some (resetEntry a (t a.id))) a e.message := by
      unfold stepEntry
      rcases hfail with hb | ⟨ba, hb, hp⟩
      · rw [hb]
      · rw [hb, hp]
    rw [hstep]
    rfl
  · intro b hb hbne
    rw [runFetchSteps_mem enabled net _ b hb hnodup,
      resetLoading_mem enabled t b hb hnodup]
  · intro id hid
    rw [runFetchSteps_not_mem enabled net _ id hid,
      resetLoading_not_mem enabled t id hid]

/-- Witness for fetch_cycle_failure_isolation: two enabled accounts,
account a1's balance call answers HTTP 500; a1 gets the error entry, a2
gets its own successful refresh, an unrelated id stays absent. -/
theorem fetch_cycle_failure_isolation_witness :
    fetchAccountData [wAccount1, wAccount2] wNet emptyTable "a1" =
        some { account := wAccount1, balance := none, positions := [],
               orders := [], loading := false,
               error := some "HTTP error! status: 500, body: boom" } ∧
    fetchAccountData [wAccount1, wAccount2] wNet emptyTable "a2" =
        some (stepEntry wAccount2 (wNet "a2") (some (resetEntry wAccount2 none))) ∧
    fetchAccountData [wAccount1, wAccount2] wNet emptyTable "zz" = none := by
  have h := fetch_cycle_failure_isolation [wAccount1, wAccount2] wNet
    emptyTable wAccount1 (.httpError 500 "boom") (by decide) (by decide)
    (Or.inl rfl)
  exact ⟨h.1, h.2.1 wAccount2 (by decide) (by decide), h.2.2 "zz" (by decide)⟩

/-! ## C7 -/

/-- C7: a failed cancel call leaves the whole table unchanged (it never
propagates an exception), and a cancel at a missing entry is a no-op; a
successful cancel rewrites exactly the target account's entry, keeping
an order of that account if and only if its id differs from the
cancelled one; every other account id is untouched whatever the
outcome; and cancelling an id that matches no order of the account's
list leaves the account's entry unchanged. -/
theorem handleCancelOrder_spec (order : BitgetOrder) (accountId : String)
    (net : NetResult CancelOrderData) (t : AccountsTable) :
    (∀ e, cancelOrder net = .error e →
      handleCancelOrder order accountId net t = t) ∧
    (t accountId = none → handleCancelOrder order accountId net t = t) ∧
    (∀ d, cancelOrder net = .ok true → t accountId = some d →
      handleCancelOrder order accountId net t accountId =
        some { d with orders :=
          d.orders.filter (fun o => o.orderId != order.orderId) } ∧
      ∀ o, o ∈ d.orders →
        (o ∈ d.orders.filter (fun o => o.orderId != order.orderId) ↔
          o.orderId ≠ order.orderId)) ∧
    (∀ id, id ≠ accountId → handleCancelOrder order accountId net t id = t id) ∧
    (∀ d, t accountId = some d →
      (∀ o, o ∈ d.orders → o.orderId ≠ order.orderId) →
      handleCancelOrder order accountId net t accountId = t accountId) := by
  refine ⟨?_, ?_, ?_, ?_, ?_⟩
  · intro e he
    unfold handleCancelOrder
    cases ht : t accountId with
    | none => rfl
    | some d => rw [he]
  · intro ht
    unfold handleCancelOrder
    rw [ht]
  · intro d hc ht
    unfold handleCancelOrder
    rw [ht, hc]
    constructor
    · simp [modifyEntry, ht]
    · intro o ho
      simp [List.mem_filter, ho]
  · intro id hid
    unfold handleCancelOrder
    cases ht : t accountId with
    | none => rfl
    | some d =>
        cases hc : cancelOrder net with
        | error e => rfl
        | ok b => simp [modifyEntry, hid]
  · intro d ht hall
    unfold handleCancelOrder
    rw [ht]
    cases hc : cancelOrder net with
    | error e => exact ht
    | ok b =>
        have hfix : d.orders.filter (fun o => o.orderId != order.orderId) =
            d.orders :=
          List.filter_eq_self.mpr fun o ho => bne_iff_ne.mpr (hall o ho)
        simp [modifyEntry, ht, hfix]

/-- Witness for handleCancelOrder_spec: on the sample table a
successful cancel of ord1 leaves exactly ord2, each sample order stays
exactly when its id differs, a failed cancel changes nothing, another
account id is untouched, and cancelling the unknown id nope is a
no-op. -/
theorem handleCancelOrder_spec_witness :
    handleCancelOrder wOrder1 "a1" wCancelOk wTable "a1" =
        some { wData1 with orders :=
          [wOrder1, wOrder2].filter (fun o => o.orderId != "ord1") } ∧
    (wOrder2 ∈ [wOrder1, wOrder2].filter (fun o => o.orderId != "ord1") ↔
      "ord2" ≠ "ord1") ∧
    handleCancelOrder wOrder1 "a1" wCancelFail wTable = wTable ∧
    handleCancelOrder wOrder1 "a1" wCancelOk wTable "zz" = wTable "zz" ∧
    handleCancelOrder wOrderUnknown "a1" wCancelOk wTable "a1" = wTable "a1" := by
  refine ⟨?_, ?_, ?_, ?_, ?_⟩
  · exact ((handleCancelOrder_spec wOrder1 "a1" wCancelOk wTable).2.2.1 wData1
      rfl rfl).1
  · exact ((handleCancelOrder_spec wOrder1 "a1" wCancelOk wTable).2.2.1 wData1
      rfl rfl).2 wOrder2 (by decide)
  · exact (handleCancelOrder_spec wOrder1 "a1" wCancelFail wTable).1
      (.httpError 500 "down") rfl
  · exact (handleCancelOrder_spec wOrder1 "a1" wCancelOk wTable).2.2.2.1 "zz"
      (by decide)
  · exact (handleCancelOrder_spec wOrderUnknown "a1" wCancelOk wTable).2.2.2.2
      wData1 rfl (by decide)

/-! ## C8 -/

/-- Exact-value reading of the zero test: a finite parse result denotes
zero precisely when its numerator is zero. -/
theorem parseFloat_val_zero (num : Int) (scale : Nat) :
    (ParseFloatResult.finite num scale).val = some 0 ↔ num = 0 := by
  constructor
  · intro h
    have h' : (num : ℚ) / (10 : ℚ) ^ scale = 0 := by
      simpa [ParseFloatResult.val] using h
    rcases div_eq_zero_iff.mp h' with h0 | h0
    · exact_mod_cast h0
    · exact absurd h0 (by positivity)
  · intro h
    subst h
    simp [ParseFloatResult.val]

/-- C8: a position whose total is the empty string (the falsy absent
case), or whose total parses to exactly zero, never appears in the
filtered list the dashboard renders; and every displayed position
matches the selected symbol's instrument id, has a nonempty total, and
any finite value its total parses to is nonzero. -/
theorem position_filter_excludes_zero (positions : List BitgetPosition)
    (selectedSymbol : String) :
    (∀ p, p ∈ positions →
      (p.total = "" ∨ (jsParseFloat p.total).val = some 0) →
      p ∉ filteredPositions positions selectedSymbol) ∧
    (∀ p, p ∈ filteredPositions positions selectedSymbol →
      p.symbol = getApiSymbol selectedSymbol ∧ p.total ≠ "" ∧
      ∀ q, (jsParseFloat p.total).val = some q → q ≠ 0) := by
  constructor
  · rintro p hp (hz | hz) hmem
    · have hcond := (List.mem_filter.mp hmem).2
      simp [positionDisplayed, hz,
        show String.isEmpty "" = true from rfl] at hcond
    · have hcond := (List.mem_filter.mp hmem).2
      cases hpf : jsParseFloat p.total with
      | nan => rw [hpf] at hz; simp [ParseFloatResult.val] at hz
      | infinite b => rw [hpf] at hz; simp [ParseFloatResult.val] at hz
      | finite num scale =>
          rw [hpf] at hz
          have hnum := (parseFloat_val_zero num scale).mp hz
          simp [positionDisplayed, jsParseFloatNeZero, hpf, hnum] at hcond
  · intro p hmem
    have hcond := (List.mem_filter.mp hmem).2
    simp only [positionDisplayed, Bool.and_eq_true, beq_iff_eq,
      Bool.not_eq_true'] at hcond
    refine ⟨hcond.1.1, ?_, ?_⟩
    · intro hz
      rw [hz] at hcond
      exact absurd hcond.1.2 (by decide)
    · intro q hq h0
      have hne := hcond.2
      subst h0
      cases hpf : jsParseFloat p.total with
      | nan => rw [hpf] at hq; simp [ParseFloatResult.val] at hq
      | infinite b => rw [hpf] at hq; simp [ParseFloatResult.val] at hq
      | finite num scale =>
          rw [hpf] at hq
          have hnum : num = 0 := (parseFloat_val_zero num scale).mp hq
          rw [jsParseFloatNeZero, hpf, hnum] at hne
          simp at hne

/-- Witness for position_filter_excludes_zero: with one zero-size and
one live 0.5-size BTC position, the zero-size one is excluded from the
display and the live one satisfies the displayed-position properties. -/
theorem position_filter_excludes_zero_witness :
    wPositionZero ∉ filteredPositions [wPositionZero, wPositionLive]
        "BTCUSD.P" ∧
    (wPositionLive.symbol = getApiSymbol "BTCUSD.P" ∧
      wPositionLive.total ≠ "" ∧
      ∀ q, (jsParseFloat wPositionLive.total).val = some q → q ≠ 0) :=
  ⟨(position_filter_excludes_zero [wPositionZero, wPositionLive]
      "BTCUSD.P").1 wPositionZero (by decide)
      (Or.inr (by
        rw [show jsParseFloat wPositionZero.total =
          ParseFloatResult.finite 0 0 from rfl]
        simp [ParseFloatResult.val])),
   (position_filter_excludes_zero [wPositionZero, wPositionLive]
      "BTCUSD.P").2 wPositionLive (by decide)⟩

/-! ## C9 -/

/-- Delays scheduled over a trace: one per close event. -/
theorem runFeedEvents_closed_count (s : FeedState) (events : List FeedEvent) :
    (runFeedEvents s events).reconnectDelaysMs.length =
      s.reconnectDelaysMs.length +
        (events.filter (fun e => e == .closed)).length := by
  induction events generalizing s with
  | nil => rfl
  | cons c rest ih =>
      have step : runFeedEvents s (c :: rest) =
          runFeedEvents (handleFeedEvent s c) rest := rfl
      rw [step, ih]
      cases c with
      | opened => simp [handleFeedEvent]
      | closed =>
          simp [handleFeedEvent]
          omega

/-- Every delay ever scheduled is the fixed 5000 ms. -/
theorem runFeedEvents_delays_fixed (s : FeedState) (events : List FeedEvent)
    (d : Nat) (hd : d ∈ (runFeedEvents s events).reconnectDelaysMs) :
    d ∈ s.reconnectDelaysMs ∨ d = 5000 := by
  induction events generalizing s with
  | nil => exact Or.inl hd
  | cons c rest ih =>
      have step : runFeedEvents s (c :: rest) =
          runFeedEvents (handleFeedEvent s c) rest := rfl
      rw [step] at hd
      rcases ih _ hd with hmem | h5
      · cases c with
        | opened => exact Or.inl hmem
        | closed =>
            rcases List.mem_append.mp hmem with h | h
            · exact Or.inl h
            · simp at h
              exact Or.inr h
      · exact Or.inr h5

/-- C9: on stream close the handler clears the connected flag and
schedules exactly one reconnect at the fixed 5000 ms delay; on the
reconnected stream's open the handler sends one subscription message per
configured channel, for BTCUSDT_UMCBL, ETHUSDT_UMCBL and BNBUSDT_UMCBL;
and over any event trace the number of scheduled reconnects equals the
number of closes — every close schedules a retry, whatever the history,
and every scheduled delay is the same 5000 ms (no cap, no backoff
growth). -/
theorem feed_close_reconnect_resubscribe (s : FeedState)
    (events : List FeedEvent) :
    (handleFeedEvent s .closed).wsConnected = false ∧
    (handleFeedEvent s .closed).reconnectDelaysMs =
        s.reconnectDelaysMs ++ [5000] ∧
    (handleFeedEvent s .opened).sentMessages = s.sentMessages ++
        [subscribeMessage "BTCUSDT_UMCBL", subscribeMessage "ETHUSDT_UMCBL",
         subscribeMessage "BNBUSDT_UMCBL"] ∧
    wsSymbols.map (fun p => p.1) =
        ["BTCUSDT_UMCBL", "ETHUSDT_UMCBL", "BNBUSDT_UMCBL"] ∧
    (runFeedEvents s events).reconnectDelaysMs.length =
        s.reconnectDelaysMs.length +
          (events.filter (fun e => e == .closed)).length ∧
    (∀ d, d ∈ (runFeedEvents s events).reconnectDelaysMs →
        d ∈ s.reconnectDelaysMs ∨ d = 5000) :=
  ⟨rfl, rfl, rfl, rfl, runFeedEvents_closed_count s events,
   fun d hd => runFeedEvents_delays_fixed s events d hd⟩

/-- Witness for feed_close_reconnect_resubscribe on a concrete trace of
two disconnects around one reopen: the flag clears, two reconnects get
scheduled, and the delay found in the schedule is the fixed 5000 ms. -/
theorem feed_close_reconnect_resubscribe_witness :
    (handleFeedEvent ⟨true, true, [], []⟩ .closed).wsConnected = false ∧
    (runFeedEvents ⟨true, true, [], []⟩
        [.closed, .opened, .closed]).reconnectDelaysMs.length =
      ([] : List Nat).length +
        ([FeedEvent.closed, .opened, .closed].filter
          (fun e => e == .closed)).length ∧
    ((5000 : Nat) ∈ ([] : List Nat) ∨ (5000 : Nat) = 5000) := by
  have h := feed_close_reconnect_resubscribe ⟨true, true, [], []⟩
    [.closed, .opened, .closed]
  exact ⟨h.1, h.2.2.2.2.1, h.2.2.2.2.2 5000 (by decide)⟩

/-! ## C10 -/

/-- Writing an invariant-satisfying entry preserves the table
invariant. -/
theorem setEntry_inv (t : AccountsTable) (id : String) (d : AccountData)
    (ht : tableLoadingInv t) (hd : entryLoadingInv d) :
    tableLoadingInv (setEntry t id d) := by
  intro i d' h
  by_cases hi : i = id
  · subst hi
    rw [setEntry_same] at h
    injection h with h
    subst h
    exact hd
  · rw [setEntry_other t id d i hi] at h
    exact ht i d' h

/-- Both completion writes of a refresh step clear the loading flag. -/
theorem stepEntry_loading_false (a : BitgetAccount) (net : FetchOutcomes)
    (prev : Option AccountData) : (stepEntry a net prev).loading = false := by
  unfold stepEntry
  cases getAccountBalance net.balanceResult with
  | error e => exact (applyError_fields prev a _).1
  | ok ba =>
      cases getPositions net.positionsResult with
      | error e => exact (applyError_fields prev a _).1
      | ok ps => exact (applySuccess_fields prev a _ _ _).2.2.2

/-- The reset entry satisfies the loading invariant: it is loading with
no data visible. -/
theorem resetEntry_inv (a : BitgetAccount) (prev : Option AccountData) :
    entryLoadingInv (resetEntry a prev) := fun _ => ⟨rfl, rfl, rfl⟩

/-- The loading reset preserves the table invariant. -/
theorem resetLoading_inv (l : List BitgetAccount) (t : AccountsTable)
    (ht : tableLoadingInv t) : tableLoadingInv (resetLoading l t) := by
  induction l generalizing t with
  | nil => exact ht
  | cons c rest ih => exact ih _ (setEntry_inv t c.id _ ht (resetEntry_inv c _))

/-- The refresh loop preserves the table invariant. -/
theorem runFetchSteps_inv (l : List BitgetAccount)
    (net : String → FetchOutcomes) (t : AccountsTable)
    (ht : tableLoadingInv t) : tableLoadingInv (runFetchSteps l net t) := by
  induction l generalizing t with
  | nil => exact ht
  | cons c rest ih =>
      refine ih _ ?_
      show tableLoadingInv (fetchAccountStep c (net c.id) t)
      rw [fetchAccountStep_eq]
      refine setEntry_inv t c.id _ ht ?_
      intro hl
      rw [stepEntry_loading_false] at hl
      simp at hl

/-- The whole fetch cycle preserves the table invariant. -/
theorem fetchAccountData_inv (accounts : List BitgetAccount)
    (net : String → FetchOutcomes) (t : AccountsTable)
    (ht : tableLoadingInv t) :
    tableLoadingInv (fetchAccountData accounts net t) := by
  by_cases h2 : accounts.filter (fun a => a.enabled) = []
  · unfold fetchAccountData
    split
    · exact ht
    · show tableLoadingInv
        (if (accounts.filter (fun a => a.enabled)).isEmpty = true then t
         else runFetchSteps (accounts.filter (fun a => a.enabled)) net
           (resetLoading (accounts.filter (fun a => a.enabled)) t))
      rw [if_pos (by simpa [List.isEmpty_iff] using h2)]
      exact ht
  · rw [fetchAccountData_eq accounts net t h2]
    exact runFetchSteps_inv _ _ _ (resetLoading_inv _ _ ht)

/-- Updating one entry with an invariant-preserving function preserves
the table invariant. -/
theorem modifyEntry_inv (t : AccountsTable) (id : String)
    (f : AccountData → AccountData) (ht : tableLoadingInv t)
    (hf : ∀ d, t id = some d → entryLoadingInv d → entryLoadingInv (f d)) :
    tableLoadingInv (modifyEntry t id f) := by
  intro i d h
  unfold modifyEntry at h
  by_cases hi : i = id
  · rw [if_pos hi] at h
    cases hd : t id with
    | none => rw [hd] at h; cases h
    | some d0 =>
        rw [hd] at h
        simp only [Option.map_some'] at h
        injection h with h
        subst h
        exact hf d0 hd (ht id d0 hd)
  · rw [if_neg hi] at h
    exact ht i d h

/-- The cancel handler preserves the table invariant. -/
theorem handleCancelOrder_inv (order : BitgetOrder) (accountId : String)
    (cnet : NetResult CancelOrderData) (t : AccountsTable)
    (ht : tableLoadingInv t) :
    tableLoadingInv (handleCancelOrder order accountId cnet t) := by
  unfold handleCancelOrder
  cases hta : t accountId with
  | none => exact ht
  | some d0 =>
      cases cancelOrder cnet with
      | error e => exact ht
      | ok b =>
          refine modifyEntry_inv t accountId _ ht ?_
          intro d hd hinv hl
          have h0 := hinv hl
          refine ⟨h0.1, h0.2.1, ?_⟩
          show List.filter _ d.orders = []
          rw [h0.2.2]
          rfl

/-- Every id the loading reset touches ends up holding a reset entry;
an id it does not touch keeps its previous entry. -/
theorem resetLoading_cases (l : List BitgetAccount) (t : AccountsTable)
    (id : String) :
    resetLoading l t id = t id ∨
      ∃ a prev, a ∈ l ∧ resetLoading l t id = some (resetEntry a prev) := by
  induction l generalizing t with
  | nil => exact Or.inl rfl
  | cons c rest ih =>
      have step : resetLoading (c :: rest) t =
          resetLoading rest (setEntry t c.id (resetEntry c (t c.id))) := rfl
      rcases ih (setEntry t c.id (resetEntry c (t c.id))) with heq |
        ⟨a, prev, hmem, heq⟩
      · rw [step, heq]
        by_cases hid : id = c.id
        · subst hid
          rw [setEntry_same]
          exact Or.inr ⟨c, t c.id, List.mem_cons_self c rest, rfl⟩
        · rw [setEntry_other t c.id _ id hid]
          exact Or.inl rfl
      · rw [step, heq]
        exact Or.inr ⟨a, prev, List.mem_cons_of_mem c hmem, rfl⟩

/-- Every enabled account's id holds a reset entry once the reset has
run. -/
theorem resetLoading_mem_written (l : List BitgetAccount) (t : AccountsTable)
    (a : BitgetAccount) (ha : a ∈ l) :
    ∃ a' prev, resetLoading l t a.id = some (resetEntry a' prev) := by
  induction l generalizing t with
  | nil => cases ha
  | cons c rest ih =>
      have step : resetLoading (c :: rest) t =
          resetLoading rest (setEntry t c.id (resetEntry c (t c.id))) := rfl
      rcases List.mem_cons.mp ha with rfl | hmem
      · rcases resetLoading_cases rest
          (setEntry t a.id (resetEntry a (t a.id))) a.id with heq |
          ⟨a', prev, _, heq⟩
        · rw [step, heq, setEntry_same]
          exact ⟨a, t a.id, rfl⟩
        · exact ⟨a', prev, by rw [step, heq]⟩
      · rw [step]
        exact ih _ hmem

/-- C10: whenever an entry's loading flag is true its balance is null
and its positions and orders are empty. The fetch cycle establishes the
reset — every enabled account's entry becomes a loading entry with
balance null and empty lists before any network response is applied —
and the cycle's completion and error writes, as well as the cancel
handler, preserve the invariant on every entry of the table. -/
theorem loading_invariant_maintained (configAccounts : List BitgetAccount)
    (net : String → FetchOutcomes) (t : AccountsTable) (order : BitgetOrder)
    (accountId : String) (cnet : NetResult CancelOrderData)
    (hinv : tableLoadingInv t) :
    tableLoadingInv (fetchAccountData configAccounts net t) ∧
    tableLoadingInv (handleCancelOrder order accountId cnet t) ∧
    (∀ a, a ∈ configAccounts.filter (fun x => x.enabled) →
      ∃ d, resetLoading (configAccounts.filter (fun x => x.enabled)) t a.id =
          some d ∧
        d.loading = true ∧ d.balance = none ∧ d.positions = [] ∧
        d.orders = []) := by
  refine ⟨fetchAccountData_inv _ _ _ hinv,
    handleCancelOrder_inv _ _ _ _ hinv, ?_⟩
  intro a ha
  obtain ⟨a', prev, heq⟩ := resetLoading_mem_written _ t a ha
  exact ⟨resetEntry a' prev, heq, rfl, rfl, rfl, rfl⟩

/-- Witness for loading_invariant_maintained on the empty initial table
with the two sample accounts: the cycle and the cancel handler keep the
invariant, and the enabled account a1 holds a loading entry with no
data after the reset. -/
theorem loading_invariant_maintained_witness :
    tableLoadingInv (fetchAccountData [wAccount1, wAccount2] wNet emptyTable) ∧
    tableLoadingInv (handleCancelOrder wOrder1 "a1" wCancelOk emptyTable) ∧
    (∃ d, resetLoading ([wAccount1, wAccount2].filter (fun x => x.enabled))
        emptyTable "a1" = some d ∧
      d.loading = true ∧ d.balance = none ∧ d.positions = [] ∧
      d.orders = []) := by
  have h := loading_invariant_maintained [wAccount1, wAccount2] wNet
    emptyTable wOrder1 "a1" wCancelOk (fun _ _ hx => Option.noConfusion hx)
  exact ⟨h.1, h.2.1, h.2.2 wAccount1 (by decide)⟩

end BitgetHedger
